import Mathlib

/-!
Verification of the mvfy_visual identity-knowledge pipeline.

The definitions below are a shallow embedding of the Python sources:
  * `src/src/mvfy/visual/systems/visual_knowledge.py` (class `VisualKnowledge`)
  * `src/src/mvfy/visual/func.py`

Numbers (dates, frequencies, spans) are embedded as rationals; dates are
expressed as counts of the configured `min_date_knowledge` reference unit.
External capabilities that the repository consumes but does not define
(the detector's embedding comparator, and `utils.frequency` from
`mvfy.utils.index`, which is not part of the sources) are passed as
explicit function parameters, exactly where the Python calls them.
-/

namespace Mvfy

/-- A face embedding: a fixed-length numeric vector (`detection` field). -/
abbrev Emb := List ℚ

/-- Identity record as persisted in the User collection and returned by
`func.find_user` / `func.get_users`: the fields `evaluate_detection`,
`save_new_unknown` and the deduplication sweep read or write. -/
structure User where
  author : String
  system_id : String
  detection : Emb
  features : List String
  init_date : ℚ
  last_date : ℚ
  knowledge : Bool
  frequency : ℚ
  deriving Repr, DecidableEq

/-- The `VisualKnowledge` dataclass fields used by `evaluate_detection` and
`start`. `min_date_knowledge` is the pair (span, date reference); the span is
`min_date_knowledge[0]` and dates are embedded in units of
`min_date_knowledge[1]`. Note the dataclass defines `min_frequency`
(default `0.7`) but no attribute named `frequency`. -/
structure VisualKnowledge where
  max_descriptor_distance : ℚ
  min_date_knowledge_span : ℚ
  min_frequency : ℚ := 7/10
  resize_factor : ℚ := 1/4
  batch_images : Int := 20
  frequency_save_new_unknows : Nat := 2
  deriving Repr, DecidableEq

/-- Embedding of Python attribute access `self.<name>` on the
`VisualKnowledge` dataclass, restricted to rational-valued attributes.
The dataclass (and its `__post_init__`) defines `max_descriptor_distance`,
`min_date_knowledge`, `min_frequency`, `resize_factor`, `delay`,
`batch_images`, `date_format`, `frequency_save_new_unknows`, `id`,
db handles, queues and threads — but never an attribute called
`frequency`, so that lookup is an `AttributeError` (`none`). -/
def VisualKnowledge.attr (vk : VisualKnowledge) : String → Option ℚ
  | "max_descriptor_distance" => some vk.max_descriptor_distance
  | "min_frequency" => some vk.min_frequency
  | "resize_factor" => some vk.resize_factor
  | _ => none

/-- Modelled from the spec: `utils.get_date_diff_so_far(date, reference)`
lives in `mvfy.utils.index`, which is not under `src/`. Per the spec it is
the elapsed time from `date` until now measured in the `min_date_knowledge`
reference unit; we embed dates as rational counts of that unit and pass
`now` explicitly, so the elapsed time is the difference. -/
def get_date_diff_so_far (now date : ℚ) : ℚ := now - date

/-- Result of one `evaluate_detection` call: the field state of the fetched
record object when control leaves the method, whether an exception escaped
(the `AttributeError` on `self.frequency`), and whether
`func.update_user` was invoked. -/
structure EvalOutcome where
  user : User
  raised : Bool
  store_updated : Bool
  deriving Repr, DecidableEq

/-- Embedding of `VisualKnowledge.evaluate_detection` (systems version,
lines 395-434), after the store lookup succeeded, applied to the fetched
record `user0`.

`frequency_fn` is `utils.frequency(total, percentage, value, invert)` from
`mvfy.utils.index` (not under `src/`), passed as a parameter.

Python semantics captured here:
  * `prev_user = user` binds a second name to the *same* object (no copy),
    so field mutations performed through `user` are visible through
    `prev_user`; at the final comparison `prev_user != user` both names
    denote the mutated record, and the comparison is between the record
    and itself.
  * in the `elif` branch, the call
    `utils.frequency(total=…, percentage=1, value=self.frequency, invert=True)`
    evaluates `self.frequency` first; `VisualKnowledge.attr` yields `none`
    for it, so an `AttributeError` is raised before any field of the
    record is assigned. -/
def evaluate_detection (vk : VisualKnowledge)
    (frequency_fn : ℚ → ℚ → ℚ → Bool → ℚ) (now : ℚ) (user0 : User) :
    EvalOutcome :=
  let diff_date := get_date_diff_so_far now user0.init_date
  if diff_date > vk.min_date_knowledge_span ∧ user0.frequency ≥ vk.min_frequency then
    let user := { user0 with knowledge := true }
    let prev_user := user
    ⟨user, false, decide (prev_user ≠ user)⟩
  else if get_date_diff_so_far now user0.last_date > 0 then
    match vk.attr "frequency" with
    | none => ⟨user0, true, false⟩
    | some v =>
      let prev_days := frequency_fn vk.min_date_knowledge_span 1 v true
      let user := { user0 with
        last_date := now,
        frequency := frequency_fn vk.min_date_knowledge_span 1 (prev_days + 1) false }
      let prev_user := user
      ⟨user, false, decide (prev_user ≠ user)⟩
  else
    let user := user0
    let prev_user := user
    ⟨user, false, decide (prev_user ≠ user)⟩

/-- Embedding of the batch-size parity check in `VisualKnowledge.start`
(lines 243-244).  `start` first awaits `__preload` and registers the reload
scheduler, then runs this check, and only afterwards enters the
`while True` steady-state loop; so an error here is raised before the loop
is ever entered. -/
def start_check (batch_images : Int) : Except String Unit :=
  if batch_images % 2 ≠ 0 then
    Except.error "invalid batch image size"
  else
    Except.ok ()

/-- Python slice `l[0::2]`: the elements at even indices. -/
def sliceEvenIdx : List α → List α
  | [] => []
  | [a] => [a]
  | a :: _ :: rest => a :: sliceEvenIdx rest

/-- Python slice `l[1::2]`: the elements at odd indices. -/
def sliceOddIdx : List α → List α
  | [] => []
  | [_] => []
  | _ :: b :: rest => b :: sliceOddIdx rest

/-- Embedding of the per-batch body of `VisualKnowledge.start`
(lines 252-266): `images_to_process = images_batch[1::2]`,
`images_raw = images_batch[0::2]`, the to-process frames are analyzed
(`analyze` stands for encoding extraction followed by `detect_type_user`),
and the output is accumulated by `for pair_images in zip(images_raw,
batch_processed): all_images.extend(pair_images)`. -/
def start_batch_body (analyze : α → α) (images_batch : List α) : List α :=
  let images_to_process := sliceOddIdx images_batch
  let images_raw := sliceEvenIdx images_batch
  let batch_processed := images_to_process.map analyze
  ((images_raw.zip batch_processed).map (fun p => [p.1, p.2])).flatten

/-- The specification's description of the batch output: each frame at an
even index passes through unchanged and is immediately followed by its
odd-indexed twin, analyzed, in the original positional order. -/
def specInterleaved (analyze : α → α) : List α → List α
  | [] => []
  | [a] => [a]
  | a :: b :: rest => a :: analyze b :: specInterleaved analyze rest

/-- Disposition of one detected face in `detect_type_user`: the label drawn
on the frame (`"conocido"` for a known face, `"desconocido"` otherwise). -/
inductive Disposition where
  | known
  | unknown
  deriving Repr, DecidableEq

/-- The two decoupling queues of the pipeline: `self.new_users` (records
awaiting `add_new_users`) and `self.evaluate_users` (authors awaiting
`evaluate_detections`). -/
structure Queues where
  new_users : List User
  evaluate_users : List String
  deriving Repr, DecidableEq

/-- One in-memory tier (`detector_knows` / `detector_unknows`): the
parallel arrays `authors` and `encodings`. -/
structure DetectorSet where
  authors : List String
  encodings : List Emb
  deriving Repr, DecidableEq

/-- Numpy boolean-mask selection `xs[mask]`. -/
def boolMask (mask : List Bool) (xs : List α) : List α :=
  ((mask.zip xs).filter (fun p => p.1)).map (fun p => p.2)

/-- Numpy boolean-mask selection with the inverted mask,
`xs[np.invert(mask)]`. -/
def boolMaskNot (mask : List Bool) (xs : List α) : List α :=
  ((mask.zip xs).filter (fun p => !p.1)).map (fun p => p.2)

/-- The record `save_new_unknown` enqueues onto `new_users` for a face that
matched nothing: fresh author, `knowledge false`, `frequency 0`,
`init_date = last_date = now`. -/
def new_unknown_record (system_id new_author : String) (encoding : Emb)
    (features : List String) (now : ℚ) : User :=
  { author := new_author
    system_id := system_id
    detection := encoding
    features := features
    init_date := now
    last_date := now
    knowledge := false
    frequency := 0 }

/-- Embedding of the body of the `for face_location, face_encoding in
zip(*face_properties)` loop of `VisualKnowledge.detect_type_user`
(lines 358-391) for one face.

`cmpK` / `cmpU` are the external detector comparators
(`detector_knows.compare` / `detector_unknows.compare`); `compare(e)`
returns the boolean vector of per-entry matches against the detector's
current `encodings`, embedded as `encodings.map (cmp e)`.

Returns the queue state after the face, the disposition drawn on the
frame, and whether the body raised (`previous_authors[mask][0]` is an
`IndexError` when the masked selection is empty). -/
def detect_type_user_step (cmpK cmpU : Emb → Emb → Bool)
    (knows unknows : DetectorSet) (batch_processed : Nat)
    (frequency_save_new_unknows : Nat) (system_id new_author : String)
    (now : ℚ) (q : Queues) (face_encoding : Emb) :
    Queues × Disposition × Bool :=
  let known_comparations := knows.encodings.map (cmpK face_encoding)
  if known_comparations.any id then
    (q, Disposition.known, false)
  else if batch_processed % frequency_save_new_unknows = 0 then
    let unknown_comparations := unknows.encodings.map (cmpU face_encoding)
    if unknown_comparations.any id then
      let previous_authors := unknows.authors.take unknown_comparations.length
      match (boolMask unknown_comparations previous_authors).head? with
      | some a =>
        ({ q with evaluate_users := q.evaluate_users ++ [a] },
         Disposition.unknown, false)
      | none => (q, Disposition.unknown, true)
    else
      ({ q with new_users := q.new_users ++
          [new_unknown_record system_id new_author face_encoding [] now] },
       Disposition.unknown, false)
  else
    (q, Disposition.unknown, false)

/-- The append performed by the `add_new_users` consumer loop
(lines 294-295) after persisting a dequeued new unknown: both parallel
arrays of `detector_unknows` grow by the record's author and detection. -/
def add_new_users_append (unknows : DetectorSet) (new_user : User) :
    DetectorSet :=
  { authors := unknows.authors ++ [new_user.author]
    encodings := unknows.encodings ++ [new_user.detection] }

/-- The append performed by the `evaluate_detections` consumer loop
(lines 280-281) when the evaluated record has `knowledge` true: both
parallel arrays of `detector_knows` grow by the record's author and
detection. -/
def evaluate_detections_append (knows : DetectorSet) (user : User) :
    DetectorSet :=
  { authors := knows.authors ++ [user.author]
    encodings := knows.encodings ++ [user.detection] }

/-- Final detector state and accumulated store deletions of the sweep loop
in `func.remove_users_duplicate_detection`. -/
structure SweepState where
  authors : List String
  encodings : List Emb
  deleted : List String
  deriving Repr, DecidableEq

/-- Embedding of the `while idx is not None and
detector.encodings.shape[0] > 0` loop of
`func.remove_users_duplicate_detection` (lines 198-220), with the detector
arrays as explicit state and `cmp` the external comparator
(`detector.compare(e)` is the boolean match vector of `e` against the
detector's current `encodings`).  One iteration: if `idx+1` is not below
the array length, `idx = None` ends the loop; otherwise the pivot
`encodings[idx]` is read, both arrays are sliced to `[idx+1:]`, the pivot
is compared against the remaining entries, on any match the matching
authors are deleted from the store and both arrays are masked down to the
non-matching entries, and `idx` is incremented. -/
def sweep_loop (cmp : Emb → Emb → Bool) (idx : Nat)
    (authors : List String) (encodings : List Emb)
    (deleted : List String) : SweepState :=
  if encodings.length = 0 then
    ⟨authors, encodings, deleted⟩
  else if h : idx + 1 ≥ encodings.length then
    ⟨authors, encodings, deleted⟩
  else
    let encoding := encodings.get ⟨idx, by omega⟩
    let encs := encodings.drop (idx + 1)
    let auths := authors.drop (idx + 1)
    let comparations := encs.map (cmp encoding)
    if comparations.any id then
      sweep_loop cmp (idx + 1) (boolMaskNot comparations auths)
        (boolMaskNot comparations encs)
        (deleted ++ boolMask comparations auths)
    else
      sweep_loop cmp (idx + 1) auths encs deleted
termination_by encodings.length
decreasing_by
  · have key : ∀ (m : List Bool) (xs : List Emb),
        (boolMaskNot m xs).length ≤ xs.length := by
      intro m xs
      calc (boolMaskNot m xs).length
          = ((m.zip xs).filter (fun p => !p.1)).length := List.length_map ..
        _ ≤ (m.zip xs).length := List.length_filter_le ..
        _ ≤ xs.length := by rw [List.length_zip]; omega
    refine lt_of_le_of_lt (key _ _) ?_
    rw [List.length_drop]
    omega
  · rw [List.length_drop]
    omega

/-- The guard of `func.remove_users_duplicate_detection` (line 192):
`users != [] or users is not None`.  In the branch where the store returned
a list, `users is not None` is `True`, so the disjunction accepts every
list, the empty one included. -/
def dedup_guard (users : List User) : Bool :=
  decide (users ≠ []) || true

/-- Python errors surfaced by the embedded fragments. -/
inductive PyError where
  | valueError
  deriving Repr, DecidableEq

/-- Embedding of `func.remove_users_duplicate_detection` (lines 181-220)
applied to the store's answer `users`, already sorted by frequency
descending (`get_sort_users` with `[('frequency', DESCENDING)]`).
Returns the list of authors deleted from the store, or the error the
function raises: with zero records, `authors, encodings = zip(*[...])`
unpacks an empty sequence and raises a `ValueError`. -/
def remove_users_duplicate_detection (cmp : Emb → Emb → Bool)
    (users : List User) : Except PyError (List String) :=
  if dedup_guard users then
    match users with
    | [] => Except.error PyError.valueError
    | _ =>
      let authors := users.map (fun u => u.author)
      let encodings := users.map (fun u => u.detection)
      Except.ok (sweep_loop cmp 0 authors encodings []).deleted
  else
    Except.ok []

/-- The deduplication algorithm as the specification words it: repeatedly
take the head of the working list, delete from the store every remaining
record whose embedding matches the head, remove those records from the
working list, and advance to the next head until the list is exhausted.
Returns the deleted authors. -/
def specHeadSweep (cmp : Emb → Emb → Bool) :
    List (String × Emb) → List String
  | [] => []
  | p :: rest =>
    let matched := rest.filter (fun x => cmp p.2 x.2)
    let kept := rest.filter (fun x => !cmp p.2 x.2)
    matched.map (fun x => x.1) ++ specHeadSweep cmp kept
termination_by l => l.length
decreasing_by
  simp only [List.length_cons]
  exact Nat.lt_succ_of_le (List.length_filter_le _ _)

/-- Proof-side reformulation of `sweep_loop` on the zipped working list;
`sweep_loop_eq_pairSweep` relates it to the source embedding. -/
def pairSweep (cmp : Emb → Emb → Bool) (idx : Nat)
    (L : List (String × Emb)) : List String :=
  if L.length = 0 then []
  else if h : idx + 1 ≥ L.length then []
  else
    let p := L.get ⟨idx, by omega⟩
    let rest := L.drop (idx + 1)
    let matched := rest.filter (fun x => cmp p.2 x.2)
    let kept := rest.filter (fun x => !cmp p.2 x.2)
    matched.map (fun x => x.1) ++ pairSweep cmp (idx + 1) kept
termination_by L.length
decreasing_by
  refine lt_of_le_of_lt (List.length_filter_le _ _) ?_
  rw [List.length_drop]
  omega

/-- Concrete system configuration used for witnesses: span of 7 units,
promotion frequency threshold 0.7 (the default). -/
def vkExample : VisualKnowledge :=
  { max_descriptor_distance := 1/4
    min_date_knowledge_span := 7 }

/-- Concrete stand-in for the external `utils.frequency` capability, used
only to instantiate witnesses (the branch that would call it raises
before the call, so its value never matters there). -/
def freqExample : ℚ → ℚ → ℚ → Bool → ℚ := fun _ _ v _ => v

/-- A record meeting both promotion conditions at `now = 10`:
first seen 10 units ago (> span 7) with frequency 0.8 ≥ 0.7. -/
def userPromotable : User :=
  { author := "u1"
    system_id := "sys"
    detection := [1]
    features := []
    init_date := 0
    last_date := 9
    knowledge := false
    frequency := 4/5 }

/-- A record meeting neither promotion condition at `now = 10`, whose
`last_date` lies in an earlier time window (elapsed 1 > 0). -/
def userStale : User :=
  { author := "u2"
    system_id := "sys"
    detection := [2]
    features := []
    init_date := 5
    last_date := 9
    knowledge := false
    frequency := 1/2 }

/-- Concrete comparator for witnesses: exact embedding equality. -/
def cmpEq : Emb → Emb → Bool := fun a b => a == b

/-- Three unknown identities sorted by frequency descending: the first
matches nothing, the second and third are duplicates of each other. -/
def dupUserA : User :=
  { author := "a", system_id := "sys", detection := [1], features := []
    init_date := 0, last_date := 0, knowledge := false, frequency := 9 }

/-- Second record of the duplicate trio: embedding `[5]`, frequency 5. -/
def dupUserB : User :=
  { author := "b", system_id := "sys", detection := [5], features := []
    init_date := 0, last_date := 0, knowledge := false, frequency := 5 }

/-- Third record of the duplicate trio: embedding `[5]`, frequency 2. -/
def dupUserC : User :=
  { author := "c", system_id := "sys", detection := [5], features := []
    init_date := 0, last_date := 0, knowledge := false, frequency := 2 }

/-- Two unknown identities within threshold distance, frequencies 5 and 2,
sorted by frequency descending — the spec's deduplication scenario. -/
def dupPairHi : User :=
  { author := "p5", system_id := "sys", detection := [3], features := []
    init_date := 0, last_date := 0, knowledge := false, frequency := 5 }

/-- The lower-frequency member of the scenario pair. -/
def dupPairLo : User :=
  { author := "p2", system_id := "sys", detection := [3], features := []
    init_date := 0, last_date := 0, knowledge := false, frequency := 2 }

/-- A known tier with one entry, for witnesses. -/
def knownSetEx : DetectorSet := ⟨["k1"], [[1]]⟩

/-- An empty unknown tier, for witnesses. -/
def unknownSetEx : DetectorSet := ⟨[], []⟩

/-- Both queues empty, for witnesses. -/
def queuesEmpty : Queues := ⟨[], []⟩

section Theorems

/-- C1: the write-back never happens.  `prev_user = user` aliases the
record instead of snapshotting it, so `prev_user != user` compares the
mutated record with itself and is always false: `update_user` is not
invoked on any input, even when the evaluation changed the record — the
promotable record below has its `knowledge` flag flipped, yet
`store_updated` is false. -/
theorem attr_frequency (vk : VisualKnowledge) : vk.attr "frequency" = none :=
  rfl

theorem evaluate_detection_promotes (vk : VisualKnowledge)
    (frequency_fn : ℚ → ℚ → ℚ → Bool → ℚ) (now : ℚ) (u : User)
    (hc : get_date_diff_so_far now u.init_date > vk.min_date_knowledge_span ∧
      u.frequency ≥ vk.min_frequency) :
    evaluate_detection vk frequency_fn now u =
      ⟨{ u with knowledge := true }, false, false⟩ := by
  unfold evaluate_detection
  rw [if_pos hc]
  simp

theorem evaluate_detection_no_promote (vk : VisualKnowledge)
    (frequency_fn : ℚ → ℚ → ℚ → Bool → ℚ) (now : ℚ) (u : User)
    (hc : ¬(get_date_diff_so_far now u.init_date > vk.min_date_knowledge_span ∧
      u.frequency ≥ vk.min_frequency)) :
    evaluate_detection vk frequency_fn now u =
      if get_date_diff_so_far now u.last_date > 0 then ⟨u, true, false⟩
      else ⟨u, false, false⟩ := by
  unfold evaluate_detection
  rw [if_neg hc]
  by_cases h2 : get_date_diff_so_far now u.last_date > 0
  · rw [if_pos h2, if_pos h2, attr_frequency]
  · rw [if_neg h2, if_neg h2]
    simp

theorem hi_promotable :
    get_date_diff_so_far 10 userPromotable.init_date >
        vkExample.min_date_knowledge_span ∧
      userPromotable.frequency ≥ vkExample.min_frequency := by
  constructor
  · show (10:ℚ) - 0 > 7
    norm_num
  · show (4:ℚ)/5 ≥ 7/10
    norm_num

theorem hn_stale :
    ¬(get_date_diff_so_far 10 userStale.init_date >
        vkExample.min_date_knowledge_span ∧
      userStale.frequency ≥ vkExample.min_frequency) := by
  intro h
  have : (1:ℚ)/2 ≥ 7/10 := h.2
  norm_num at this

/-- C1: the write-back never happens.  `prev_user = user` aliases the
record instead of snapshotting it, so `prev_user != user` compares the
mutated record with itself and is always false: `update_user` is not
invoked on any input, even when the evaluation changed the record — the
promotable record below has its `knowledge` flag flipped, yet
`store_updated` is false. -/
theorem c1_writeback_never :
    (∀ (vk : VisualKnowledge) (frequency_fn : ℚ → ℚ → ℚ → Bool → ℚ)
        (now : ℚ) (u : User),
      (evaluate_detection vk frequency_fn now u).store_updated = false) ∧
    (evaluate_detection vkExample freqExample 10 userPromotable).user ≠
        userPromotable ∧
    (evaluate_detection vkExample freqExample 10 userPromotable).user.knowledge
        = true := by
  have heval := evaluate_detection_promotes vkExample freqExample 10
    userPromotable hi_promotable
  refine ⟨?_, ?_, ?_⟩
  · intro vk frequency_fn now u
    by_cases h1 : get_date_diff_so_far now u.init_date >
        vk.min_date_knowledge_span ∧ u.frequency ≥ vk.min_frequency
    · rw [evaluate_detection_promotes vk frequency_fn now u h1]
    · rw [evaluate_detection_no_promote vk frequency_fn now u h1]
      by_cases h2 : get_date_diff_so_far now u.last_date > 0
      · rw [if_pos h2]
      · rw [if_neg h2]
  · rw [heval]
    intro h
    have : userPromotable.knowledge = true := by rw [← h]
    simp [userPromotable] at this
  · rw [heval]

/-- C2: the recompute-frequency branch does not complete: its first
statement evaluates `self.frequency`, an attribute the `VisualKnowledge`
dataclass never defines, so an `AttributeError` is raised and the record
keeps its old `frequency` and `last_date`.  Shown on a record that misses
the promotion condition while `elapsed(last_date) = 1 > 0`. -/
theorem c2_branch_raises :
    evaluate_detection vkExample freqExample 10 userStale =
      ⟨userStale, true, false⟩ := by
  rw [evaluate_detection_no_promote vkExample freqExample 10 userStale hn_stale]
  rw [if_pos]
  show (10:ℚ) - 9 > 0
  norm_num

/-- C3: for a record in Unknown state, `knowledge` is set to true iff
`elapsed(init_date) > span` and `frequency ≥ min_frequency`; in every
other case the record is returned with all fields unchanged (the
frequency-advance branch raises before assigning any field). -/
theorem c3_promotion_iff (vk : VisualKnowledge)
    (frequency_fn : ℚ → ℚ → ℚ → Bool → ℚ) (now : ℚ) (u : User)
    (h : u.knowledge = false) :
    ((evaluate_detection vk frequency_fn now u).user.knowledge = true ↔
      (get_date_diff_so_far now u.init_date > vk.min_date_knowledge_span ∧
        u.frequency ≥ vk.min_frequency)) ∧
    (¬(get_date_diff_so_far now u.init_date > vk.min_date_knowledge_span ∧
        u.frequency ≥ vk.min_frequency) →
      (evaluate_detection vk frequency_fn now u).user = u) := by
  by_cases hc : get_date_diff_so_far now u.init_date >
      vk.min_date_knowledge_span ∧ u.frequency ≥ vk.min_frequency
  · refine ⟨?_, fun hn => absurd hc hn⟩
    rw [evaluate_detection_promotes vk frequency_fn now u hc]
    simpa using hc
  · have hu : (evaluate_detection vk frequency_fn now u).user = u := by
      rw [evaluate_detection_no_promote vk frequency_fn now u hc]
      by_cases h2 : get_date_diff_so_far now u.last_date > 0
      · rw [if_pos h2]
      · rw [if_neg h2]
    refine ⟨?_, fun _ => hu⟩
    rw [hu, h]
    simp [hc]

/-- Witness for C3 at concrete inputs: the promotable record is promoted,
and the stale record (promotion condition false) is returned unchanged. -/
theorem c3_witness :
    (evaluate_detection vkExample freqExample 10 userPromotable).user.knowledge
        = true ∧
    (evaluate_detection vkExample freqExample 10 userStale).user = userStale := by
  constructor
  · exact (c3_promotion_iff vkExample freqExample 10 userPromotable
      rfl).1.mpr hi_promotable
  · exact (c3_promotion_iff vkExample freqExample 10 userStale
      rfl).2 hn_stale

/-- C7: the check at the top of `start` accepts a batch size iff it is
even; an odd size raises the `ValueError` before the steady-state loop is
entered, an even size passes the check. -/
theorem c7_batch_parity (n : Int) :
    (start_check n = Except.ok ()) ↔ n % 2 = 0 := by
  unfold start_check
  by_cases h : n % 2 = 0
  · simp [h]
  · simp [h]

/-- Witness for C7: batch size 7 is rejected, batch size 20 accepted. -/
theorem c7_witness :
    start_check 7 ≠ Except.ok () ∧ start_check 20 = Except.ok () := by
  constructor
  · intro h
    exact absurd ((c7_batch_parity 7).mp h) (by decide)
  · exact (c7_batch_parity 20).mpr (by decide)

/-- C4: a face whose embedding matches at least one entry of the known
tier gets disposition Known, and neither queue is touched — whatever the
batch counter and sampling cadence are. -/
theorem c4_known_no_enqueue (cmpK cmpU : Emb → Emb → Bool)
    (knows unknows : DetectorSet) (batch_processed : Nat)
    (frequency_save_new_unknows : Nat) (system_id new_author : String)
    (now : ℚ) (q : Queues) (e : Emb)
    (h : (knows.encodings.map (cmpK e)).any id = true) :
    detect_type_user_step cmpK cmpU knows unknows batch_processed
      frequency_save_new_unknows system_id new_author now q e =
      (q, Disposition.known, false) := by
  unfold detect_type_user_step
  rw [if_pos h]

/-- Witness for C4: a face equal to the known entry is labelled Known with
both queues left empty, at a batch count selected by the cadence. -/
theorem c4_witness :
    detect_type_user_step cmpEq cmpEq knownSetEx unknownSetEx 0 2 "sys" "n1"
      0 queuesEmpty [1] = (queuesEmpty, Disposition.known, false) :=
  c4_known_no_enqueue cmpEq cmpEq knownSetEx unknownSetEx 0 2 "sys" "n1" 0
    queuesEmpty [1] (by simp [knownSetEx, cmpEq])

theorem start_batch_body_cons (f : α → α) (a b : α) (rest : List α) :
    start_batch_body f (a :: b :: rest) = a :: f b :: start_batch_body f rest := by
  simp [start_batch_body, sliceEvenIdx, sliceOddIdx]

/-- C8: for every even-sized batch, the even-indexed frames pass through
unanalyzed, the odd-indexed frames are analyzed, and the output handed to
the sink interleaves them pairwise in the original positional order. -/
theorem c8_interleave (f : α → α) :
    ∀ (l : List α), l.length % 2 = 0 →
      start_batch_body f l = specInterleaved f l
  | [], _ => rfl
  | [_], h => by simp at h
  | a :: b :: rest, h => by
    have hrest : rest.length % 2 = 0 := by
      simp only [List.length_cons] at h
      omega
    rw [start_batch_body_cons,
      show specInterleaved f (a :: b :: rest) =
        a :: f b :: specInterleaved f rest from rfl,
      c8_interleave f rest hrest]

/-- Witness for C8 on a concrete batch of four frames. -/
theorem c8_witness :
    start_batch_body (fun x : Int => x + 1) [1, 2, 3, 4] =
      specInterleaved (fun x : Int => x + 1) [1, 2, 3, 4] :=
  c8_interleave (fun x : Int => x + 1) [1, 2, 3, 4] rfl

/-- C10: the guard of `remove_users_duplicate_detection` accepts the empty
list (`users is not None` is true, making the disjunction true), and the
function then raises instead of returning as a no-op: unpacking
author/encoding pairs out of zero records is a `ValueError`. -/
theorem c10_empty_crash :
    dedup_guard ([] : List User) = true ∧
    remove_users_duplicate_detection cmpEq [] =
      Except.error PyError.valueError := by
  exact ⟨rfl, rfl⟩

theorem boolMask_nil (xs : List α) : boolMask [] xs = [] := rfl

theorem boolMaskNot_nil (xs : List α) : boolMaskNot [] xs = [] := rfl

theorem boolMask_cons (b : Bool) (m : List Bool) (x : α) (xs : List α) :
    boolMask (b :: m) (x :: xs) =
      if b then x :: boolMask m xs else boolMask m xs := by
  cases b <;> simp [boolMask]

theorem boolMaskNot_cons (b : Bool) (m : List Bool) (x : α) (xs : List α) :
    boolMaskNot (b :: m) (x :: xs) =
      if b then boolMaskNot m xs else x :: boolMaskNot m xs := by
  cases b <;> simp [boolMaskNot]

theorem boolMask_map_filter (f : β → Bool) :
    ∀ (A : List α) (E : List β), A.length = E.length →
      boolMask (E.map f) A =
        ((A.zip E).filter (fun x => f x.2)).map (fun x => x.1)
  | [], [], _ => rfl
  | [], _ :: _, h => by simp at h
  | _ :: _, [], h => by simp at h
  | a :: A, e :: E, h => by
    have ih := boolMask_map_filter f A E (by simpa using h)
    cases hb : f e <;>
      simp [boolMask_cons, hb, List.filter_cons, ih]

theorem boolMaskNot_zip_filter (f : β → Bool) :
    ∀ (A : List α) (E : List β), A.length = E.length →
      (boolMaskNot (E.map f) A).zip (boolMaskNot (E.map f) E) =
        (A.zip E).filter (fun x => !f x.2)
  | [], [], _ => rfl
  | [], _ :: _, h => by simp at h
  | _ :: _, [], h => by simp at h
  | a :: A, e :: E, h => by
    have ih := boolMaskNot_zip_filter f A E (by simpa using h)
    cases hb : f e <;>
      simp [boolMaskNot_cons, hb, List.filter_cons, ih]

theorem boolMaskNot_map_length (f : β → Bool) :
    ∀ (A : List α) (E : List β), A.length = E.length →
      (boolMaskNot (E.map f) A).length = (boolMaskNot (E.map f) E).length
  | [], [], _ => rfl
  | [], _ :: _, h => by simp at h
  | _ :: _, [], h => by simp at h
  | a :: A, e :: E, h => by
    have ih := boolMaskNot_map_length f A E (by simpa using h)
    cases hb : f e <;>
      simp [boolMaskNot_cons, hb, ih]

theorem zip_drop_comm : ∀ (n : Nat) (A : List α) (E : List β),
    (A.drop n).zip (E.drop n) = (A.zip E).drop n
  | 0, _, _ => rfl
  | _ + 1, [], _ => by simp
  | _ + 1, _ :: _, [] => by simp
  | n + 1, _ :: A, _ :: E => by simpa using zip_drop_comm n A E

theorem boolMaskNot_length_le (mask : List Bool) (xs : List α) :
    (boolMaskNot mask xs).length ≤ xs.length :=
  calc (boolMaskNot mask xs).length
      = ((mask.zip xs).filter (fun p => !p.1)).length := List.length_map ..
    _ ≤ (mask.zip xs).length := List.length_filter_le ..
    _ ≤ xs.length := by rw [List.length_zip]; omega

theorem sweep_loop_stop₀ (cmp : Emb → Emb → Bool) (idx : Nat)
    (A : List String) (E : List Emb) (d : List String) (h : E.length = 0) :
    sweep_loop cmp idx A E d = ⟨A, E, d⟩ := by
  rw [sweep_loop.eq_def, if_pos h]

theorem sweep_loop_stop₁ (cmp : Emb → Emb → Bool) (idx : Nat)
    (A : List String) (E : List Emb) (d : List String)
    (h0 : ¬E.length = 0) (h1 : idx + 1 ≥ E.length) :
    sweep_loop cmp idx A E d = ⟨A, E, d⟩ := by
  rw [sweep_loop.eq_def, if_neg h0, dif_pos h1]

theorem sweep_loop_step (cmp : Emb → Emb → Bool) (idx : Nat)
    (A : List String) (E : List Emb) (d : List String)
    (h0 : ¬E.length = 0) (h1 : ¬idx + 1 ≥ E.length) (hidx : idx < E.length) :
    sweep_loop cmp idx A E d =
      if ((E.drop (idx + 1)).map (cmp (E.get ⟨idx, hidx⟩))).any id then
        sweep_loop cmp (idx + 1)
          (boolMaskNot ((E.drop (idx + 1)).map (cmp (E.get ⟨idx, hidx⟩)))
            (A.drop (idx + 1)))
          (boolMaskNot ((E.drop (idx + 1)).map (cmp (E.get ⟨idx, hidx⟩)))
            (E.drop (idx + 1)))
          (d ++ boolMask ((E.drop (idx + 1)).map (cmp (E.get ⟨idx, hidx⟩)))
            (A.drop (idx + 1)))
      else
        sweep_loop cmp (idx + 1) (A.drop (idx + 1)) (E.drop (idx + 1)) d := by
  conv_lhs => rw [sweep_loop.eq_def]
  rw [if_neg h0, dif_neg h1]

theorem pairSweep_stop₀ (cmp : Emb → Emb → Bool) (idx : Nat)
    (L : List (String × Emb)) (h : L.length = 0) :
    pairSweep cmp idx L = [] := by
  rw [pairSweep.eq_def, if_pos h]

theorem pairSweep_stop₁ (cmp : Emb → Emb → Bool) (idx : Nat)
    (L : List (String × Emb)) (h0 : ¬L.length = 0) (h1 : idx + 1 ≥ L.length) :
    pairSweep cmp idx L = [] := by
  rw [pairSweep.eq_def, if_neg h0, dif_pos h1]

theorem pairSweep_step (cmp : Emb → Emb → Bool) (idx : Nat)
    (L : List (String × Emb)) (h0 : ¬L.length = 0)
    (h1 : ¬idx + 1 ≥ L.length) (hidx : idx < L.length) :
    pairSweep cmp idx L =
      ((L.drop (idx + 1)).filter
          (fun x => cmp (L.get ⟨idx, hidx⟩).2 x.2)).map (fun x => x.1) ++
        pairSweep cmp (idx + 1)
          ((L.drop (idx + 1)).filter
            (fun x => !cmp (L.get ⟨idx, hidx⟩).2 x.2)) := by
  conv_lhs => rw [pairSweep.eq_def]
  rw [if_neg h0, dif_neg h1]

theorem sweep_loop_deleted_eq (cmp : Emb → Emb → Bool) :
    ∀ (n idx : Nat) (A : List String) (E : List Emb) (d : List String),
      E.length ≤ n → A.length = E.length →
      (sweep_loop cmp idx A E d).deleted = d ++ pairSweep cmp idx (A.zip E) := by
  intro n
  induction n with
  | zero =>
    intro idx A E d hn hlen
    have h0 : E.length = 0 := by omega
    rw [sweep_loop_stop₀ cmp idx A E d h0,
      pairSweep_stop₀ cmp idx (A.zip E) (by rw [List.length_zip]; omega)]
    simp
  | succ n ih =>
    intro idx A E d hn hlen
    have hz : (A.zip E).length = E.length := by
      rw [List.length_zip, hlen]; omega
    by_cases h0 : E.length = 0
    · rw [sweep_loop_stop₀ cmp idx A E d h0,
        pairSweep_stop₀ cmp idx (A.zip E) (by omega)]
      simp
    by_cases h1 : idx + 1 ≥ E.length
    · rw [sweep_loop_stop₁ cmp idx A E d h0 h1,
        pairSweep_stop₁ cmp idx (A.zip E) (by omega) (by omega)]
      simp
    · have hidx : idx < E.length := by omega
      have hidxz : idx < (A.zip E).length := by omega
      have hget2 : ((A.zip E).get ⟨idx, hidxz⟩).2 = E.get ⟨idx, hidx⟩ := by
        simp [List.get_eq_getElem, List.getElem_zip]
      have hdlen : (A.drop (idx + 1)).length = (E.drop (idx + 1)).length := by
        simp [List.length_drop, hlen]
      rw [sweep_loop_step cmp idx A E d h0 h1 hidx,
        pairSweep_step cmp idx (A.zip E) (by omega) (by omega) hidxz]
      rw [← zip_drop_comm (idx + 1) A E]
      simp only [hget2]
      by_cases hany :
          ((E.drop (idx + 1)).map (cmp (E.get ⟨idx, hidx⟩))).any id = true
      · rw [if_pos hany]
        rw [ih (idx + 1)
          (boolMaskNot ((E.drop (idx + 1)).map (cmp (E.get ⟨idx, hidx⟩)))
            (A.drop (idx + 1)))
          (boolMaskNot ((E.drop (idx + 1)).map (cmp (E.get ⟨idx, hidx⟩)))
            (E.drop (idx + 1)))
          (d ++ boolMask ((E.drop (idx + 1)).map (cmp (E.get ⟨idx, hidx⟩)))
            (A.drop (idx + 1)))
          (le_trans (boolMaskNot_length_le _ _) (by simp [List.length_drop]; omega))
          (boolMaskNot_map_length (cmp (E.get ⟨idx, hidx⟩))
            (A.drop (idx + 1)) (E.drop (idx + 1)) hdlen)]
        rw [boolMaskNot_zip_filter (cmp (E.get ⟨idx, hidx⟩))
          (A.drop (idx + 1)) (E.drop (idx + 1)) hdlen]
        rw [boolMask_map_filter (cmp (E.get ⟨idx, hidx⟩))
          (A.drop (idx + 1)) (E.drop (idx + 1)) hdlen]
        rw [List.append_assoc]
      · rw [if_neg hany]
        have hall : ∀ x ∈ (A.drop (idx + 1)).zip (E.drop (idx + 1)),
            ¬(cmp (E.get ⟨idx, hidx⟩) x.2 = true) := by
          intro x hx hcx
          have hx2 : x.2 ∈ E.drop (idx + 1) := by
            rcases x with ⟨xa, xe⟩
            exact (List.of_mem_zip hx).2
          exact hany (List.any_eq_true.mpr
            ⟨cmp (E.get ⟨idx, hidx⟩) x.2, List.mem_map_of_mem _ hx2, hcx⟩)
        have hmatched : ((A.drop (idx + 1)).zip (E.drop (idx + 1))).filter
            (fun x => cmp (E.get ⟨idx, hidx⟩) x.2) = [] :=
          List.filter_eq_nil_iff.mpr hall
        have hkept : ((A.drop (idx + 1)).zip (E.drop (idx + 1))).filter
            (fun x => !cmp (E.get ⟨idx, hidx⟩) x.2) =
            (A.drop (idx + 1)).zip (E.drop (idx + 1)) :=
          List.filter_eq_self.mpr (fun x hx => by
            simpa using hall x hx)
        rw [hmatched, hkept]
        rw [ih (idx + 1) (A.drop (idx + 1)) (E.drop (idx + 1)) d
          (by simp [List.length_drop]; omega) hdlen]
        simp

theorem pairSweep_subset (cmp : Emb → Emb → Bool) :
    ∀ (n idx : Nat) (L : List (String × Emb)), L.length ≤ n →
      ∀ a ∈ pairSweep cmp idx L, a ∈ (L.drop (idx + 1)).map (fun x => x.1) := by
  intro n
  induction n with
  | zero =>
    intro idx L hn a ha
    rw [pairSweep_stop₀ cmp idx L (by omega)] at ha
    simp at ha
  | succ n ih =>
    intro idx L hn a ha
    by_cases h0 : L.length = 0
    · rw [pairSweep_stop₀ cmp idx L h0] at ha
      simp at ha
    by_cases h1 : idx + 1 ≥ L.length
    · rw [pairSweep_stop₁ cmp idx L h0 h1] at ha
      simp at ha
    · have hidx : idx < L.length := by omega
      rw [pairSweep_step cmp idx L h0 h1 hidx] at ha
      rcases List.mem_append.mp ha with hm | hm
      · rcases List.mem_map.mp hm with ⟨x, hx, rfl⟩
        exact List.mem_map_of_mem _ (List.mem_of_mem_filter hx)
      · have hkb : ((L.drop (idx + 1)).filter
            (fun x => !cmp (L.get ⟨idx, hidx⟩).2 x.2)).length ≤ n := by
          have hf := List.length_filter_le
            (fun x => !cmp (L.get ⟨idx, hidx⟩).2 x.2) (L.drop (idx + 1))
          have hd : (L.drop (idx + 1)).length = L.length - (idx + 1) :=
            List.length_drop ..
          omega
        have hsub := ih (idx + 1)
          ((L.drop (idx + 1)).filter
            (fun x => !cmp (L.get ⟨idx, hidx⟩).2 x.2)) hkb a hm
        have hsl : ((((L.drop (idx + 1)).filter
            (fun x => !cmp (L.get ⟨idx, hidx⟩).2 x.2)).drop (idx + 2)).map
              (fun x => x.1)).Sublist ((L.drop (idx + 1)).map (fun x => x.1)) :=
          List.Sublist.map _
            ((List.drop_sublist ..).trans (List.filter_sublist _))
        exact hsl.subset hsub

theorem pairSweep_skip_front (cmp : Emb → Emb → Bool) (idx : Nat)
    (T K : List (String × Emb)) (hT : T.length = idx + 1)
    (hnomatch : ∀ x ∈ K, cmp (T.get ⟨idx, by omega⟩).2 x.2 = false) :
    pairSweep cmp idx (T ++ K) = pairSweep cmp (idx + 1) K := by
  by_cases hK : K = []
  · subst hK
    rw [List.append_nil,
      pairSweep_stop₁ cmp idx T (by omega) (by omega),
      pairSweep_stop₀ cmp (idx + 1) [] rfl]
  · have hKlen : 0 < K.length := List.length_pos.mpr hK
    have hlenM : (T ++ K).length = idx + 1 + K.length := by
      rw [List.length_append, hT]
    have hidxM : idx < (T ++ K).length := by omega
    rw [pairSweep_step cmp idx (T ++ K) (by omega) (by omega) hidxM]
    have hdrop : (T ++ K).drop (idx + 1) = K := by
      rw [← hT, List.drop_left]
    have hget : ((T ++ K).get ⟨idx, hidxM⟩) = T.get ⟨idx, by omega⟩ := by
      simp [List.get_eq_getElem]
      rw [List.getElem_append_left (by omega)]
    rw [hdrop, hget]
    have hmatched : (K.filter (fun x => cmp (T.get ⟨idx, by omega⟩).2 x.2)) = [] :=
      List.filter_eq_nil_iff.mpr (fun x hx => by simpa using hnomatch x hx)
    have hkept : (K.filter (fun x => !cmp (T.get ⟨idx, by omega⟩).2 x.2)) = K :=
      List.filter_eq_self.mpr (fun x hx => by simpa using hnomatch x hx)
    rw [hmatched, hkept]
    simp

theorem pairSweep_self_step (cmp : Emb → Emb → Bool) (idx : Nat)
    (L : List (String × Emb)) (h0 : ¬L.length = 0) (h1 : ¬idx + 1 ≥ L.length)
    (hidx : idx < L.length) (hnd : (L.map (fun x => x.1)).Nodup) :
    L.filter (fun x => decide (x.1 ∉ pairSweep cmp idx L)) =
      L.take (idx + 1) ++
        ((L.drop (idx + 1)).filter
            (fun x => !cmp (L.get ⟨idx, hidx⟩).2 x.2)).filter
          (fun x => decide (x.1 ∉ pairSweep cmp (idx + 1)
            ((L.drop (idx + 1)).filter
              (fun x => !cmp (L.get ⟨idx, hidx⟩).2 x.2)))) := by
  have hD := pairSweep_step cmp idx L h0 h1 hidx
  have hndrest : ((L.drop (idx + 1)).map (fun x => x.1)).Nodup := by
    rw [List.map_drop]
    exact List.Nodup.sublist (List.drop_sublist ..) hnd
  have hsplit : ∀ (g : String × Emb → Bool),
      L.filter g = (L.take (idx + 1)).filter g ++ (L.drop (idx + 1)).filter g := by
    intro g
    conv_lhs => rw [← List.take_append_drop (idx + 1) L]
    rw [List.filter_append]
  rw [hsplit]
  congr 1
  · apply List.filter_eq_self.mpr
    intro x hx
    simp only [decide_eq_true_eq]
    intro hmem
    have hsub := pairSweep_subset cmp L.length idx L le_rfl x.1 hmem
    have hxm : x.1 ∈ (L.take (idx + 1)).map (fun x => x.1) :=
      List.mem_map_of_mem _ hx
    have hnd2 : ((L.take (idx + 1)).map (fun x => x.1) ++
        (L.drop (idx + 1)).map (fun x => x.1)).Nodup := by
      rw [← List.map_append, List.take_append_drop]
      exact hnd
    exact (List.nodup_append.mp hnd2).2.2 hxm hsub
  · rw [hD]
    have hpt : ∀ x ∈ L.drop (idx + 1),
        (decide (x.1 ∉
            ((L.drop (idx + 1)).filter
              (fun x => cmp (L.get ⟨idx, hidx⟩).2 x.2)).map (fun x => x.1) ++
            pairSweep cmp (idx + 1)
              ((L.drop (idx + 1)).filter
                (fun x => !cmp (L.get ⟨idx, hidx⟩).2 x.2)))) =
          (decide (x.1 ∉ pairSweep cmp (idx + 1)
              ((L.drop (idx + 1)).filter
                (fun x => !cmp (L.get ⟨idx, hidx⟩).2 x.2))) &&
            !cmp (L.get ⟨idx, hidx⟩).2 x.2) := by
      intro x hx
      have hiff : x.1 ∈ ((L.drop (idx + 1)).filter
            (fun x => cmp (L.get ⟨idx, hidx⟩).2 x.2)).map (fun x => x.1) ↔
          cmp (L.get ⟨idx, hidx⟩).2 x.2 = true := by
        constructor
        · intro hm
          rcases List.mem_map.mp hm with ⟨y, hy, hyx⟩
          have hyr : y ∈ L.drop (idx + 1) := List.mem_of_mem_filter hy
          have hyc : cmp (L.get ⟨idx, hidx⟩).2 y.2 = true :=
            (List.mem_filter.mp hy).2
          have hxy : y = x := List.inj_on_of_nodup_map hndrest hyr hx hyx
          rw [← hxy]
          exact hyc
        · intro hc
          exact List.mem_map_of_mem _ (List.mem_filter.mpr ⟨hx, hc⟩)
      by_cases hc : cmp (L.get ⟨idx, hidx⟩).2 x.2 = true
      · have hxm : x.1 ∈ ((L.drop (idx + 1)).filter
            (fun x => cmp (L.get ⟨idx, hidx⟩).2 x.2)).map (fun x => x.1) ++
            pairSweep cmp (idx + 1)
              ((L.drop (idx + 1)).filter
                (fun x => !cmp (L.get ⟨idx, hidx⟩).2 x.2)) :=
          List.mem_append.mpr (Or.inl (hiff.mpr hc))
        simp only [List.get_eq_getElem] at hxm hc
        simp [hxm, hc]
      · have hcf : cmp (L.get ⟨idx, hidx⟩).2 x.2 = false := by
          simpa using hc
        by_cases hd : x.1 ∈ pairSweep cmp (idx + 1)
            ((L.drop (idx + 1)).filter
              (fun x => !cmp (L.get ⟨idx, hidx⟩).2 x.2))
        · have hxm : x.1 ∈ ((L.drop (idx + 1)).filter
              (fun x => cmp (L.get ⟨idx, hidx⟩).2 x.2)).map (fun x => x.1) ++
              pairSweep cmp (idx + 1)
                ((L.drop (idx + 1)).filter
                  (fun x => !cmp (L.get ⟨idx, hidx⟩).2 x.2)) :=
            List.mem_append.mpr (Or.inr hd)
          simp only [List.get_eq_getElem] at hxm hd hcf
          simp [hxm, hd, hcf]
        · have hxm : ¬(x.1 ∈ ((L.drop (idx + 1)).filter
              (fun x => cmp (L.get ⟨idx, hidx⟩).2 x.2)).map (fun x => x.1) ++
              pairSweep cmp (idx + 1)
                ((L.drop (idx + 1)).filter
                  (fun x => !cmp (L.get ⟨idx, hidx⟩).2 x.2))) := by
            intro hmm
            rcases List.mem_append.mp hmm with h | h
            · exact hc (hiff.mp h)
            · exact hd h
          simp only [List.get_eq_getElem] at hxm hd hcf
          simp [hxm, hd, hcf]
    rw [List.filter_congr hpt, ← List.filter_filter]

theorem pairSweep_self (cmp : Emb → Emb → Bool) :
    ∀ (n idx : Nat) (L : List (String × Emb)), L.length ≤ n →
      (L.map (fun x => x.1)).Nodup →
      pairSweep cmp idx
        (L.filter (fun x => decide (x.1 ∉ pairSweep cmp idx L))) = [] := by
  intro n
  induction n with
  | zero =>
    intro idx L hn _
    have hL : L = [] := List.eq_nil_of_length_eq_zero (by omega)
    subst hL
    exact pairSweep_stop₀ cmp idx _ rfl
  | succ n ih =>
    intro idx L hn hnd
    by_cases h0 : L.length = 0
    · have hL : L = [] := List.eq_nil_of_length_eq_zero h0
      subst hL
      exact pairSweep_stop₀ cmp idx _ rfl
    by_cases h1 : idx + 1 ≥ L.length
    · rw [pairSweep_stop₁ cmp idx L h0 h1]
      have hfil : L.filter (fun x => decide (x.1 ∉ ([] : List String))) = L :=
        List.filter_eq_self.mpr (fun x hx => by simp)
      rw [hfil]
      exact pairSweep_stop₁ cmp idx L h0 h1
    · have hidx : idx < L.length := by omega
      rw [pairSweep_self_step cmp idx L h0 h1 hidx hnd]
      have hT : (L.take (idx + 1)).length = idx + 1 := by
        rw [List.length_take]
        omega
      have hno : ∀ x ∈ ((L.drop (idx + 1)).filter
            (fun x => !cmp (L.get ⟨idx, hidx⟩).2 x.2)).filter
          (fun x => decide (x.1 ∉ pairSweep cmp (idx + 1)
            ((L.drop (idx + 1)).filter
              (fun x => !cmp (L.get ⟨idx, hidx⟩).2 x.2)))),
          cmp ((L.take (idx + 1)).get ⟨idx, by omega⟩).2 x.2 = false := by
        intro x hx
        have hxk : x ∈ (L.drop (idx + 1)).filter
            (fun x => !cmp (L.get ⟨idx, hidx⟩).2 x.2) :=
          List.mem_of_mem_filter hx
        have hxc : (!cmp (L.get ⟨idx, hidx⟩).2 x.2) = true :=
          (List.mem_filter.mp hxk).2
        have hgt : ((L.take (idx + 1)).get
            ⟨idx, by omega⟩ : String × Emb) = L.get ⟨idx, hidx⟩ := by
          simp [List.get_eq_getElem]
        rw [hgt]
        simpa using hxc
      rw [pairSweep_skip_front cmp idx (L.take (idx + 1)) _ hT hno]
      apply ih (idx + 1)
      · have hf := List.length_filter_le
          (fun x => !cmp (L.get ⟨idx, hidx⟩).2 x.2) (L.drop (idx + 1))
        have hd : (L.drop (idx + 1)).length = L.length - (idx + 1) :=
          List.length_drop ..
        omega
      · refine List.Nodup.sublist (List.Sublist.map _ ?_) hnd
        exact (List.filter_sublist _).trans (List.drop_sublist ..)

theorem map_filter_author (p : String → Bool) :
    ∀ (users : List User),
      (users.filter (fun u => p u.author)).map
          (fun u => (u.author, u.detection)) =
        (users.map (fun u => (u.author, u.detection))).filter
          (fun x => p x.1)
  | [] => rfl
  | u :: us => by
    have ih := map_filter_author p us
    cases hp : p u.author <;>
      simp [List.filter_cons, hp, ih]

theorem remove_users_eq_pairSweep (cmp : Emb → Emb → Bool)
    (users : List User) (h : users ≠ []) :
    remove_users_duplicate_detection cmp users =
      Except.ok (pairSweep cmp 0
        (users.map (fun u => (u.author, u.detection)))) := by
  obtain ⟨u, tl, rfl⟩ := List.exists_cons_of_ne_nil h
  show (if dedup_guard (u :: tl) then _ else _) = _
  rw [if_pos (by simp [dedup_guard])]
  show Except.ok (sweep_loop cmp 0 ((u :: tl).map (fun u => u.author))
      ((u :: tl).map (fun u => u.detection)) []).deleted =
    Except.ok (pairSweep cmp 0 ((u :: tl).map (fun u => (u.author, u.detection))))
  have hlen : ((u :: tl).map (fun u => u.author)).length =
      ((u :: tl).map (fun u => u.detection)).length := by
    simp
  rw [show (sweep_loop cmp 0 ((u :: tl).map (fun u => u.author))
      ((u :: tl).map (fun u => u.detection)) []).deleted =
      [] ++ pairSweep cmp 0 (((u :: tl).map (fun u => u.author)).zip
        ((u :: tl).map (fun u => u.detection))) from
    sweep_loop_deleted_eq cmp ((u :: tl).map (fun u => u.detection)).length
      0 _ _ [] le_rfl hlen]
  rw [List.zip_map']
  simp

/-- C6: the deduplication sweep is idempotent.  If a first run over the
unknown identities (sorted by frequency descending, authors pairwise
distinct) completed and deleted the authors `D`, a second run over the
surviving records deletes nothing. -/
theorem c6_idempotent (cmp : Emb → Emb → Bool) (users : List User)
    (h0 : users ≠ []) (hnd : (users.map (fun u => u.author)).Nodup)
    (D : List String)
    (h1 : remove_users_duplicate_detection cmp users = Except.ok D) :
    remove_users_duplicate_detection cmp
      (users.filter (fun u => decide (u.author ∉ D))) = Except.ok [] := by
  rw [remove_users_eq_pairSweep cmp users h0] at h1
  have hDeq : D = pairSweep cmp 0
      (users.map (fun u => (u.author, u.detection))) :=
    (Except.ok.inj h1).symm
  subst hDeq
  obtain ⟨u0, tl, rfl⟩ := List.exists_cons_of_ne_nil h0
  have hu0 : u0.author ∉ pairSweep cmp 0
      ((u0 :: tl).map (fun u => (u.author, u.detection))) := by
    intro hmem
    have hs := pairSweep_subset cmp
      (((u0 :: tl).map (fun u => (u.author, u.detection))).length) 0 _
      le_rfl u0.author hmem
    have hs2 : u0.author ∈ tl.map (fun u => u.author) := by
      simpa [Function.comp] using hs
    exact (List.nodup_cons.mp (by simpa using hnd)).1 hs2
  have hsne : (u0 :: tl).filter (fun u => decide (u.author ∉ pairSweep cmp 0
      ((u0 :: tl).map (fun u => (u.author, u.detection))))) ≠ [] := by
    rw [List.filter_cons_of_pos (by simpa using hu0)]
    exact List.cons_ne_nil _ _
  rw [remove_users_eq_pairSweep cmp _ hsne]
  rw [Except.ok.injEq]
  rw [map_filter_author
    (fun s => decide (s ∉ pairSweep cmp 0
      ((u0 :: tl).map (fun u => (u.author, u.detection))))) (u0 :: tl)]
  exact pairSweep_self cmp
    (((u0 :: tl).map (fun u => (u.author, u.detection))).length) 0 _
    le_rfl (by simpa [Function.comp] using hnd)

/-- Witness for C6: the first run over the scenario pair deletes `"p2"`;
the second run over the survivors deletes nothing. -/
theorem c6_witness :
    remove_users_duplicate_detection cmpEq
      ([dupPairHi, dupPairLo].filter
        (fun u => decide (u.author ∉ ["p2"]))) = Except.ok [] :=
  c6_idempotent cmpEq [dupPairHi, dupPairLo] (by simp)
    (by simp [dupPairHi, dupPairLo])
    ["p2"]
    (by
      rw [remove_users_eq_pairSweep cmpEq _ (by simp)]
      simp [pairSweep.eq_def, cmpEq, dupPairHi, dupPairLo])

/-- C5 counterexample: on three unknown identities sorted by frequency
descending where the second and third are within threshold of each other
but not of the first, the code deletes nothing — the claimed
head-by-head sweep (`specHeadSweep`) would delete the third record. -/
theorem c5_counterexample :
    remove_users_duplicate_detection cmpEq [dupUserA, dupUserB, dupUserC] =
      Except.ok [] ∧
    specHeadSweep cmpEq ([dupUserA, dupUserB, dupUserC].map
      (fun u => (u.author, u.detection))) = ["c"] := by
  constructor
  · rw [remove_users_eq_pairSweep cmpEq _ (by simp)]
    simp [pairSweep.eq_def, cmpEq, dupUserA, dupUserB, dupUserC]
  · simp [specHeadSweep.eq_def, cmpEq, dupUserA, dupUserB, dupUserC]

/-- C5 as amended: for a run over exactly two unknown identities sorted by
frequency descending whose embeddings match under the comparator, the
second (lower-frequency) record is deleted from the store and the first
is kept. -/
theorem c5_amended_pair (cmp : Emb → Emb → Bool) (u1 u2 : User)
    (h : cmp u1.detection u2.detection = true) :
    remove_users_duplicate_detection cmp [u1, u2] =
      Except.ok [u2.author] := by
  rw [remove_users_eq_pairSweep cmp _ (by simp)]
  simp [pairSweep.eq_def, h]

/-- Witness for the amended C5 on the spec's frequency-5/frequency-2
scenario pair. -/
theorem c5_amended_witness :
    remove_users_duplicate_detection cmpEq [dupPairHi, dupPairLo] =
      Except.ok ["p2"] :=
  c5_amended_pair cmpEq dupPairHi dupPairLo (by simp [cmpEq, dupPairHi, dupPairLo])

theorem sweep_loop_lengths (cmp : Emb → Emb → Bool) :
    ∀ (n idx : Nat) (A : List String) (E : List Emb) (d : List String),
      E.length ≤ n → A.length = E.length →
      (sweep_loop cmp idx A E d).authors.length =
        (sweep_loop cmp idx A E d).encodings.length := by
  intro n
  induction n with
  | zero =>
    intro idx A E d hn hlen
    rw [sweep_loop_stop₀ cmp idx A E d (by omega)]
    exact hlen
  | succ n ih =>
    intro idx A E d hn hlen
    by_cases h0 : E.length = 0
    · rw [sweep_loop_stop₀ cmp idx A E d h0]
      exact hlen
    by_cases h1 : idx + 1 ≥ E.length
    · rw [sweep_loop_stop₁ cmp idx A E d h0 h1]
      exact hlen
    · have hidx : idx < E.length := by omega
      have hdlen : (A.drop (idx + 1)).length = (E.drop (idx + 1)).length := by
        simp [List.length_drop, hlen]
      rw [sweep_loop_step cmp idx A E d h0 h1 hidx]
      by_cases hany :
          ((E.drop (idx + 1)).map (cmp (E.get ⟨idx, hidx⟩))).any id = true
      · rw [if_pos hany]
        apply ih
        · have hb := boolMaskNot_length_le
            ((E.drop (idx + 1)).map (cmp (E.get ⟨idx, hidx⟩)))
            (E.drop (idx + 1))
          have hd : (E.drop (idx + 1)).length = E.length - (idx + 1) :=
            List.length_drop ..
          omega
        · exact boolMaskNot_map_length (cmp (E.get ⟨idx, hidx⟩))
            (A.drop (idx + 1)) (E.drop (idx + 1)) hdlen
      · rw [if_neg hany]
        apply ih
        · have hd : (E.drop (idx + 1)).length = E.length - (idx + 1) :=
            List.length_drop ..
          omega
        · exact hdlen

/-- C9: every mutation of a known/unknown tier keeps the `authors` and
`encodings` arrays the same length: the ingestion append, the promotion
append, and the deduplication sweep's removals (both arrays are sliced
and masked in lockstep). -/
theorem c9_parallel_lengths :
    (∀ (d : DetectorSet) (u : User),
      d.authors.length = d.encodings.length →
      (add_new_users_append d u).authors.length =
        (add_new_users_append d u).encodings.length) ∧
    (∀ (d : DetectorSet) (u : User),
      d.authors.length = d.encodings.length →
      (evaluate_detections_append d u).authors.length =
        (evaluate_detections_append d u).encodings.length) ∧
    (∀ (cmp : Emb → Emb → Bool) (idx : Nat) (A : List String)
        (E : List Emb) (del : List String), A.length = E.length →
      (sweep_loop cmp idx A E del).authors.length =
        (sweep_loop cmp idx A E del).encodings.length) := by
  refine ⟨?_, ?_, ?_⟩
  · intro d u h
    simp [add_new_users_append, h]
  · intro d u h
    simp [evaluate_detections_append, h]
  · intro cmp idx A E del h
    exact sweep_loop_lengths cmp E.length idx A E del le_rfl h

/-- Witness for C9 at concrete tiers and a concrete sweep input. -/
theorem c9_witness :
    (add_new_users_append unknownSetEx dupUserA).authors.length =
      (add_new_users_append unknownSetEx dupUserA).encodings.length ∧
    (evaluate_detections_append knownSetEx dupUserA).authors.length =
      (evaluate_detections_append knownSetEx dupUserA).encodings.length ∧
    (sweep_loop cmpEq 0 ["p5", "p2"] [[3], [3]] []).authors.length =
      (sweep_loop cmpEq 0 ["p5", "p2"] [[3], [3]] []).encodings.length :=
  ⟨c9_parallel_lengths.1 unknownSetEx dupUserA rfl,
   c9_parallel_lengths.2.1 knownSetEx dupUserA rfl,
   c9_parallel_lengths.2.2 cmpEq 0 ["p5", "p2"] [[3], [3]] [] rfl⟩

end Theorems

end Mvfy
